import Mathlib

/-!
Shallow embedding of the mint service in `internal/ethapi/mint.go`
(`MintAPI.Mint` and its helpers `extractPublicInputs`, `computeNullifier`,
`getNullifierKey`), together with theorems about the embedded code.

External collaborators that the Go code calls but whose sources are not part
of the repository (the filesystem, `encoding/json`, `crypto.Keccak256Hash`,
`hexutil.Big` parsing, the chain database, the `bb verify` subprocess and the
backend) are modelled as an explicit environment of functions; `Mint` is a
pure function of that environment and the request, returning the result
together with the trace of externally visible events, in the order the Go
code performs them.

Integers held in `*big.Int` / `*hexutil.Big` fields are modelled as `Int`
(absent pointers as `none`); byte strings are `List Nat` with each entry a
byte value.
-/

/-- Big-endian minimal byte encoding of a natural number, with explicit fuel
so that the definition is structural and evaluates in the kernel.  With
`fuel ≥ n` this is exactly `big.Int.Bytes()` of `n`: no leading zero bytes,
and the empty list for zero. -/
def natToBytesBEAux (fuel : Nat) (n : Nat) : List Nat :=
  match fuel with
  | 0 => []
  | fuel + 1 => if n = 0 then [] else natToBytesBEAux fuel (n / 256) ++ [n % 256]

/-- `big.Int.Bytes()` for a natural number: minimal big-endian bytes. -/
def natToBytesBE (n : Nat) : List Nat :=
  natToBytesBEAux n n

/-- `new(big.Int).SetBytes(bs)`: interpret a byte list as a big-endian
natural number. -/
def bytesToNat (bs : List Nat) : Nat :=
  List.foldl (fun acc b => acc * 256 + b) 0 bs

/-- A value appearing in the `map[string]interface{}` produced by
`json.Unmarshal`: the mint code only ever asks whether the value is a
string (the `.(string)` type assertion), so other JSON values are collapsed
into one constructor. -/
inductive JsonVal where
  | strVal (s : String)
  | otherVal
deriving DecidableEq

/-- The externally visible events a call to `Mint` can perform, in program
order.  `lockAcquire`/`lockRelease` stand for `nonceLock.LockAddr` /
`UnlockAddr` on the minter address; the remaining constructors stand for
`ChainDb().Get`, running `bb verify`, `ChainDb().Put`, `GetPoolNonce`,
`SignTx` and `SendTx`. -/
inductive Event where
  | lockAcquire
  | lockRelease
  | dbGet (key : List Nat)
  | verifyInvoke (vkPath proofPath : String)
  | dbPut (key value : List Nat)
  | nonceFetch
  | signEvent
  | sendTx
deriving DecidableEq

/-- The unsigned transaction built by `types.NewTransaction` in `Mint`
(recipient modelled as a number, no payload data). -/
structure Tx where
  nonce : Nat
  toAddr : Nat
  value : Int
  gas : Nat
  gasPrice : Int
deriving DecidableEq

/-- The environment of external collaborators consulted by `Mint`:
filesystem, path handling, JSON parsing, hex parsing, Keccak-256, the chain
database, the external verifier process, and the backend.  Field order:
fileExists, dirOf, readFile, jsonParse, parseHexBig, keccak, dbGet, dbPut,
verifyFails, getPoolNonce, signTx, sendTx. -/
structure Env where
  /-- `os.Stat(p)` reports the file present (`os.IsNotExist` is false). -/
  fileExists : String → Bool
  /-- `filepath.Dir`. -/
  dirOf : String → String
  /-- the `readFile` variable (`os.ReadFile`): file contents or an error. -/
  readFile : String → Except String String
  /-- `json.Unmarshal` into `map[string]interface{}`: the parsed object as
  a lookup function, or `none` when the data is not valid JSON. -/
  jsonParse : String → Option (String → Option JsonVal)
  /-- `hexutil.Big.UnmarshalText`: parsed value, or `none` on error. -/
  parseHexBig : String → Option Int
  /-- `crypto.Keccak256Hash` on a byte list, giving the 32 hash bytes. -/
  keccak : List Nat → List Nat
  /-- `ChainDb().Get`: value bytes, or an error (not-found included). -/
  dbGet : List Nat → Except String (List Nat)
  /-- `ChainDb().Put`. -/
  dbPut : List Nat → List Nat → Except String Unit
  /-- `execCommand("bb", "verify", "-k", vk, "-p", proof).CombinedOutput()`
  returned a non-nil error (nonzero exit or failure to launch). -/
  verifyFails : String → String → Bool
  /-- `GetPoolNonce(ctx, minterAddress)`. -/
  getPoolNonce : Except String Nat
  /-- `types.SignTx(tx, signer, minterKey)`: the signed transaction,
  identified by its hash. -/
  signTx : Tx → Except String Nat
  /-- `SendTx(ctx, signedTx)`. -/
  sendTx : Nat → Except String Unit

/-- `MintRequest` (mint.go lines 72-79): recipient, optional amount,
proof-artifact path, optional explicit nullifier, optional secret. -/
structure MintRequest where
  toAddr : Nat
  amount : Option Int
  proofData : String
  nullifier : Option Int
  secret : Option Int
deriving DecidableEq

/-- `MintResponse` (mint.go lines 81-85). -/
structure MintResponse where
  txHash : Nat
  nullifier : Int
deriving DecidableEq

/-- The distinct errors `Mint` can return: the four validation errors, the
replay error `ErrNullifierAlreadyUsed`, `ErrProofVerificationFailed`, and
the backend errors passed through from nonce fetch, signing and sending. -/
inductive MintError where
  | invalidAmount
  | missingProofData
  | proofFileMissing
  | vkFileMissing
  | nullifierUsed
  | verificationFailed
  | backendNonce
  | backendSign
  | backendSend
deriving DecidableEq

/-- The byte string `"nullifier-"`, the Go variable holding the database
namespace for nullifier keys (mint.go line 58). -/
def nullifierDbTag : List Nat :=
  [110, 117, 108, 108, 105, 102, 105, 101, 114, 45]

/-- `getNullifierKey` (mint.go lines 131-134): the namespace bytes followed
by `nullifier.Bytes()` (big-endian bytes of the absolute value). -/
def getNullifierKey (nullifier : Int) : List Nat :=
  nullifierDbTag ++ natToBytesBE nullifier.natAbs

/-- `computeNullifier` (mint.go lines 114-129): `nil` for a `nil` secret,
otherwise the Keccak-256 hash of the tag byte `0x01` followed by
`secret.Bytes()`, read back as a big-endian integer. -/
def computeNullifier (keccak : List Nat → List Nat) (secret : Option Int) : Option Int :=
  match secret with
  | none => none
  | some s => some (Int.ofNat (bytesToNat (keccak (1 :: natToBytesBE s.natAbs))))

/-- `extractPublicInputs` (mint.go lines 87-112): read the proof file; if it
parses as JSON return the parsed object; otherwise, if the bytes are exactly
`"mock-proof-data"`, return the predefined object mapping `"nullifier"` to
`"0x1234567890abcdef"`; otherwise fail. -/
def extractPublicInputs (env : Env) (proofPath : String) :
    Except String (String → Option JsonVal) :=
  match env.readFile proofPath with
  | Except.error e => Except.error e
  | Except.ok data =>
    match env.jsonParse data with
    | some result => Except.ok result
    | none =>
      if data == "mock-proof-data" then
        Except.ok (fun k =>
          if k == "nullifier" then some (JsonVal.strVal "0x1234567890abcdef") else none)
      else
        Except.error "could not extract public inputs from proof file"

/-- The third resolution alternative in `Mint` (lines 169-181): best-effort
extraction of a `"nullifier"` string field from the proof artifact's public
inputs; on any failure (extraction error, missing field, non-string field,
unparsable hex) the nullifier stays unresolved. -/
def nullifierFromProof (env : Env) (proofPath : String) : Option Int :=
  match extractPublicInputs env proofPath with
  | Except.error _ => none
  | Except.ok publicInputs =>
    match publicInputs "nullifier" with
    | some (JsonVal.strVal str) =>
      match env.parseHexBig str with
      | some nv => some nv
      | none => none
    | _ => none

/-- Nullifier resolution in `Mint` (lines 161-181), first match wins:
explicit request field, then derivation from the secret, then extraction
from the proof artifact. -/
def resolveNullifier (env : Env) (req : MintRequest) : Option Int :=
  match req.nullifier with
  | some n => some n
  | none =>
    match req.secret with
    | some s => computeNullifier env.keccak (some s)
    | none => nullifierFromProof env req.proofData

/-- The amount check of `Mint` (line 141): the amount pointer is `nil` or
the value is `≤ 0`. -/
def amountInvalid (amount : Option Int) : Bool :=
  match amount with
  | none => true
  | some v => decide (v ≤ 0)

/-- The replay pre-check of `Mint` (lines 183-195): with a resolved
nullifier that is strictly positive, the nullifier counts as already used
exactly when `ChainDb().Get` on its key returns no error and a non-empty
value. -/
def replayCheckHit (env : Env) (nres : Option Int) : Bool :=
  match nres with
  | some n =>
    if 0 < n then
      match env.dbGet (getNullifierKey n) with
      | Except.ok value => decide (0 < value.length)
      | Except.error _ => false
    else false
  | none => false

/-- The database reads performed by the replay pre-check. -/
def replayCheckTrace (nres : Option Int) : List Event :=
  match nres with
  | some n => if 0 < n then [Event.dbGet (getNullifierKey n)] else []
  | none => []

/-- The verification verdict of `Mint` (lines 197-220): the call is rejected
exactly when the `bb verify` invocation failed and the proof file does not
read back as the mock sentinel `"mock-proof-data"` (a read error also fails
the sentinel check, as in the Go code). -/
def verifyRejected (env : Env) (vkPath proofPath : String) : Bool :=
  env.verifyFails vkPath proofPath &&
    !(match env.readFile proofPath with
      | Except.ok data => data == "mock-proof-data"
      | Except.error _ => false)

/-- The commit step of `Mint` (lines 224-237): with a strictly positive
resolved nullifier, `ChainDb().Put` marks the key with value `[1]`; the Go
code inspects the `Put` error only to log it, so both outcomes continue
identically. -/
def commitTrace (env : Env) (nres : Option Int) : List Event :=
  match nres with
  | some n =>
    if 0 < n then
      match env.dbPut (getNullifierKey n) [1] with
      | Except.ok _ => [Event.dbPut (getNullifierKey n) [1]]
      | Except.error _ => [Event.dbPut (getNullifierKey n) [1]]
    else []
  | none => []

/-- The issuance tail of `Mint` (lines 243-284): fetch the pool nonce for
the minter, build the value transfer with gas limit 21000 and gas price 1,
sign it, send it, and answer with the transaction hash and the resolved
nullifier (zero when none was resolved).  Backend errors are returned as
they occur. -/
def issueTx (env : Env) (req : MintRequest) (nres : Option Int) :
    Except MintError MintResponse × List Event :=
  match env.getPoolNonce with
  | Except.error _ => (Except.error MintError.backendNonce, [Event.nonceFetch])
  | Except.ok nonce =>
    let tx : Tx := ⟨nonce, req.toAddr, (req.amount.getD 0), 21000, 1⟩
    match env.signTx tx with
    | Except.error _ =>
      (Except.error MintError.backendSign, [Event.nonceFetch, Event.signEvent])
    | Except.ok signedTx =>
      match env.sendTx signedTx with
      | Except.error _ =>
        (Except.error MintError.backendSend,
          [Event.nonceFetch, Event.signEvent, Event.sendTx])
      | Except.ok _ =>
        (Except.ok ⟨signedTx, (nres.getD 0)⟩,
          [Event.nonceFetch, Event.signEvent, Event.sendTx])

/-- The body of `Mint` after the four validation checks have passed
(mint.go lines 161-284): resolve the nullifier, run the replay pre-check,
verify the proof, commit the nullifier, and issue the transaction. -/
def mintAfterValidation (env : Env) (req : MintRequest) :
    Except MintError MintResponse × List Event :=
  let vkPath := env.dirOf req.proofData ++ "/vk"
  let nres := resolveNullifier env req
  let t1 := replayCheckTrace nres
  if replayCheckHit env nres then
    (Except.error MintError.nullifierUsed, t1)
  else
    let t2 := t1 ++ [Event.verifyInvoke vkPath req.proofData]
    if verifyRejected env vkPath req.proofData then
      (Except.error MintError.verificationFailed, t2)
    else
      let t3 := t2 ++ commitTrace env nres
      let res := issueTx env req nres
      (res.1, t3 ++ res.2)

/-- `MintAPI.Mint` (mint.go lines 139-285): the four validation checks in
source order (amount, proof path present, proof file exists, co-located
`vk` file exists), then the post-validation body.  The result is paired
with the trace of external events the call performed. -/
def Mint (env : Env) (req : MintRequest) :
    Except MintError MintResponse × List Event :=
  if amountInvalid req.amount then
    (Except.error MintError.invalidAmount, [])
  else if req.proofData == "" then
    (Except.error MintError.missingProofData, [])
  else if !(env.fileExists req.proofData) then
    (Except.error MintError.proofFileMissing, [])
  else if !(env.fileExists (env.dirOf req.proofData ++ "/vk")) then
    (Except.error MintError.vkFileMissing, [])
  else
    mintAfterValidation env req

/-- All four validation checks of `Mint` pass. -/
def passesValidation (env : Env) (req : MintRequest) : Bool :=
  !(amountInvalid req.amount) && !(req.proofData == "") &&
    env.fileExists req.proofData &&
    env.fileExists (env.dirOf req.proofData ++ "/vk")

/-! ### Basic lemmas about the embedded definitions -/

/-- With enough fuel, decoding the big-endian encoding gives the number back. -/
theorem bytesToNat_natToBytesBEAux (fuel : Nat) :
    ∀ n : Nat, n ≤ fuel → bytesToNat (natToBytesBEAux fuel n) = n := by
  induction fuel with
  | zero =>
    intro n hn
    interval_cases n
    simp [natToBytesBEAux, bytesToNat]
  | succ fuel ih =>
    intro n hn
    by_cases h0 : n = 0
    · simp [natToBytesBEAux, h0, bytesToNat]
    · have hdiv : n / 256 ≤ fuel := by
        have hlt : n / 256 < n := Nat.div_lt_self (Nat.pos_of_ne_zero h0) (by norm_num)
        omega
      have hrec := ih (n / 256) hdiv
      simp only [natToBytesBEAux, h0, if_false]
      unfold bytesToNat at hrec ⊢
      rw [List.foldl_append]
      simp [hrec]
      omega

/-- Decoding the big-endian encoding gives the number back. -/
theorem bytesToNat_natToBytesBE (n : Nat) : bytesToNat (natToBytesBE n) = n :=
  bytesToNat_natToBytesBEAux n n (Nat.le_refl n)

/-- The big-endian minimal encoding is injective. -/
theorem natToBytesBE_injective {a b : Nat} (h : natToBytesBE a = natToBytesBE b) :
    a = b := by
  have := congrArg bytesToNat h
  rwa [bytesToNat_natToBytesBE, bytesToNat_natToBytesBE] at this

/-- The database writes the commit step performs, independent of the `Put`
outcome. -/
def commitEvents (nres : Option Int) : List Event :=
  match nres with
  | some n => if 0 < n then [Event.dbPut (getNullifierKey n) [1]] else []
  | none => []

/-- The commit step's trace does not depend on what `Put` returns. -/
theorem commitTrace_eq_commitEvents (env : Env) (nres : Option Int) :
    commitTrace env nres = commitEvents nres := by
  cases nres with
  | none => rfl
  | some n =>
    by_cases h : 0 < n
    · simp only [commitTrace, commitEvents, h, if_true]
      cases env.dbPut (getNullifierKey n) [1] <;> rfl
    · simp [commitTrace, commitEvents, h]

/-- When the four validation checks pass, `Mint` runs its post-validation
body. -/
theorem mint_validated (env : Env) (req : MintRequest)
    (h : passesValidation env req = true) :
    Mint env req = mintAfterValidation env req := by
  simp only [passesValidation, Bool.and_eq_true, Bool.not_eq_true'] at h
  obtain ⟨⟨⟨h1, h2⟩, h3⟩, h4⟩ := h
  simp [Mint, h1, h2, h3, h4]

/-- An event is a database write. -/
def Event.isPut : Event → Bool
  | Event.dbPut _ _ => true
  | _ => false

/-- An event belongs to transaction issuance (nonce fetch, signing,
sending). -/
def Event.isIssue : Event → Bool
  | Event.nonceFetch => true
  | Event.signEvent => true
  | Event.sendTx => true
  | _ => false

/-- An event is a nonce-lock operation. -/
def Event.isLock : Event → Bool
  | Event.lockAcquire => true
  | Event.lockRelease => true
  | _ => false

/-- No database write occurs in the list. -/
def noPut (l : List Event) : Bool :=
  l.all (fun e => !Event.isPut e)

/-- No issuance event occurs in the list. -/
def noIssue (l : List Event) : Bool :=
  l.all (fun e => !Event.isIssue e)

/-- Every database write in the list occurs before every issuance event:
after any issuance event there is no further write. -/
def commitPrecedesIssue : List Event → Bool
  | [] => true
  | e :: rest => (if Event.isIssue e then noPut rest else true) && commitPrecedesIssue rest

/-- Appending issuance-free events in front preserves the ordering
property. -/
theorem commitPrecedesIssue_append (a b : List Event)
    (ha : noIssue a = true) (hb : commitPrecedesIssue b = true) :
    commitPrecedesIssue (a ++ b) = true := by
  induction a with
  | nil => simpa using hb
  | cons e rest ih =>
    simp only [noIssue, List.all_cons, Bool.and_eq_true, Bool.not_eq_true'] at ha
    simp only [List.cons_append, commitPrecedesIssue, Bool.and_eq_true]
    exact ⟨by simp [ha.1], ih (by simp [noIssue, ha.2])⟩

/-- The issuance tail never reports a replay error. -/
theorem issueTx_fst_ne_nullifierUsed (env : Env) (req : MintRequest)
    (nres : Option Int) :
    (issueTx env req nres).1 ≠ Except.error MintError.nullifierUsed := by
  rcases hn : env.getPoolNonce with e | nonce
  · simp [issueTx, hn]
  · rcases hs : env.signTx ⟨nonce, req.toAddr, req.amount.getD 0, 21000, 1⟩ with e | stx
    · simp [issueTx, hn, hs]
    · rcases hd : env.sendTx stx with e | u
      · simp [issueTx, hn, hs, hd]
      · simp [issueTx, hn, hs, hd]

/-- The issuance tail is one of three concrete traces: nonce fetch alone,
nonce fetch then signing, or nonce fetch, signing and sending. -/
theorem issueTx_snd_cases (env : Env) (req : MintRequest) (nres : Option Int) :
    (issueTx env req nres).2 = [Event.nonceFetch] ∨
    (issueTx env req nres).2 = [Event.nonceFetch, Event.signEvent] ∨
    (issueTx env req nres).2 = [Event.nonceFetch, Event.signEvent, Event.sendTx] := by
  rcases hn : env.getPoolNonce with e | nonce
  · simp [issueTx, hn]
  · rcases hs : env.signTx ⟨nonce, req.toAddr, req.amount.getD 0, 21000, 1⟩ with e | stx
    · simp [issueTx, hn, hs]
    · rcases hd : env.sendTx stx with e | u
      · simp [issueTx, hn, hs, hd]
      · simp [issueTx, hn, hs, hd]

/-- The issuance tail performs no database access and no lock operation. -/
theorem issueTx_snd_clean (env : Env) (req : MintRequest) (nres : Option Int) :
    noPut (issueTx env req nres).2 = true ∧
    commitPrecedesIssue (issueTx env req nres).2 = true ∧
    (∀ k, Event.dbGet k ∉ (issueTx env req nres).2) ∧
    (∀ e, e ∈ (issueTx env req nres).2 → Event.isLock e = false) := by
  rcases issueTx_snd_cases env req nres with h | h | h <;>
    rw [h] <;>
    refine ⟨by decide, by decide, fun k => by simp, fun e he => ?_⟩ <;>
    cases e <;> simp_all [Event.isLock]

/-- Explicit case shape of the post-validation body: replay rejection,
verification rejection, or commit followed by issuance. -/
theorem mintAfterValidation_cases (env : Env) (req : MintRequest) :
    mintAfterValidation env req =
      (if replayCheckHit env (resolveNullifier env req) then
        (Except.error MintError.nullifierUsed, replayCheckTrace (resolveNullifier env req))
      else if verifyRejected env (env.dirOf req.proofData ++ "/vk") req.proofData then
        (Except.error MintError.verificationFailed,
          replayCheckTrace (resolveNullifier env req) ++
            [Event.verifyInvoke (env.dirOf req.proofData ++ "/vk") req.proofData])
      else
        ((issueTx env req (resolveNullifier env req)).1,
          replayCheckTrace (resolveNullifier env req) ++
            [Event.verifyInvoke (env.dirOf req.proofData ++ "/vk") req.proofData] ++
            commitEvents (resolveNullifier env req) ++
            (issueTx env req (resolveNullifier env req)).2)) := by
  simp only [mintAfterValidation, commitTrace_eq_commitEvents, List.append_assoc]

/-- The replay pre-check performs no lock, write or issuance events. -/
theorem replayCheckTrace_clean (nres : Option Int) :
    noIssue (replayCheckTrace nres) = true ∧
    noPut (replayCheckTrace nres) = true ∧
    (∀ k v, Event.dbPut k v ∉ replayCheckTrace nres) ∧
    (∀ e, e ∈ replayCheckTrace nres → Event.isLock e = false) := by
  cases nres with
  | none => simp [replayCheckTrace, noIssue, noPut]
  | some n =>
    by_cases h : 0 < n <;>
      simp [replayCheckTrace, noIssue, noPut, h, Event.isIssue, Event.isPut, Event.isLock]

/-- The commit step performs no lock, read or issuance events. -/
theorem commitEvents_clean (nres : Option Int) :
    noIssue (commitEvents nres) = true ∧
    (∀ k, Event.dbGet k ∉ commitEvents nres) ∧
    (∀ e, e ∈ commitEvents nres → Event.isLock e = false) := by
  cases nres with
  | none => simp [commitEvents, noIssue]
  | some n =>
    by_cases h : 0 < n <;>
      simp [commitEvents, noIssue, h, Event.isIssue, Event.isLock]

/-- No event of any `Mint` call is a nonce-lock operation: the code never
touches the `nonceLock` field. -/
theorem mint_trace_lock_free (env : Env) (req : MintRequest) :
    ∀ e ∈ (Mint env req).2, Event.isLock e = false := by
  unfold Mint
  split
  · simp
  · split
    · simp
    · split
      · simp
      · split
        · simp
        · rw [mintAfterValidation_cases]
          split
          · exact (replayCheckTrace_clean (resolveNullifier env req)).2.2.2
          · split
            · intro e he
              simp only [List.mem_append, List.mem_singleton] at he
              rcases he with he | rfl
              · exact (replayCheckTrace_clean (resolveNullifier env req)).2.2.2 e he
              · rfl
            · intro e he
              simp only [List.mem_append, List.mem_singleton] at he
              rcases he with ((he | rfl) | he) | he
              · exact (replayCheckTrace_clean (resolveNullifier env req)).2.2.2 e he
              · rfl
              · exact (commitEvents_clean (resolveNullifier env req)).2.2 e he
              · exact (issueTx_snd_clean env req (resolveNullifier env req)).2.2.2 e he

/-- Claim C1: the exclusive per-identity nonce lock is never acquired (nor
released) by any call to `Mint`, whatever the environment and request: the
code fetches the pool nonce, signs and submits without ever touching
`api.nonceLock`, so nothing serializes nonce allocation across concurrent
mint calls. -/
theorem mint_never_acquires_nonce_lock (env : Env) (req : MintRequest) :
    Event.lockAcquire ∉ (Mint env req).2 ∧ Event.lockRelease ∉ (Mint env req).2 := by
  constructor
  · intro h
    have := mint_trace_lock_free env req Event.lockAcquire h
    simp [Event.isLock] at this
  · intro h
    have := mint_trace_lock_free env req Event.lockRelease h
    simp [Event.isLock] at this

/-! ### Concrete environments and requests used as witnesses -/

/-- A concrete environment: all files exist, the proof file holds opaque
bytes, the database has no records (`Get` fails as not-found), writes
succeed, the verifier accepts, and the backend fetches nonce 7, signs to
transaction hash 42 and sends successfully. -/
def envOk : Env :=
  ⟨fun _ => true, fun _ => "d", fun _ => Except.ok "proof-bytes", fun _ => none,
   fun _ => none, fun bs => bs, fun _ => Except.error "leveldb: not found",
   fun _ _ => Except.ok (), fun _ _ => false, Except.ok 7,
   fun _ => Except.ok 42, fun _ => Except.ok ()⟩

/-- Like `envOk`, but the database reports every nullifier key as marked
used (value `[1]`). -/
def envUsed : Env :=
  ⟨fun _ => true, fun _ => "d", fun _ => Except.ok "proof-bytes", fun _ => none,
   fun _ => none, fun bs => bs, fun _ => Except.ok [1],
   fun _ _ => Except.ok (), fun _ _ => false, Except.ok 7,
   fun _ => Except.ok 42, fun _ => Except.ok ()⟩

/-- Like `envOk`, but every database read fails with an I/O error that is
not a not-found condition. -/
def envGetErr : Env :=
  ⟨fun _ => true, fun _ => "d", fun _ => Except.ok "proof-bytes", fun _ => none,
   fun _ => none, fun bs => bs, fun _ => Except.error "disk corruption",
   fun _ _ => Except.ok (), fun _ _ => false, Except.ok 7,
   fun _ => Except.ok 42, fun _ => Except.ok ()⟩

/-- A request with a valid amount and an explicit nullifier 5. -/
def reqExplicit5 : MintRequest :=
  ⟨1, some 1, "p", some 5, none⟩

/-- A request whose amount pointer is absent. -/
def reqNoAmount : MintRequest :=
  ⟨1, none, "p", none, none⟩

/-! ### Claim theorems -/

/-- Claim C6: a request whose amount is absent or not strictly positive
fails with the invalid-amount error and performs no external events at all:
no store access, no verifier invocation, no transaction issuance. -/
theorem mint_invalid_amount_no_effects (env : Env) (req : MintRequest)
    (h : req.amount = none ∨ ∃ v, req.amount = some v ∧ v ≤ 0) :
    Mint env req = (Except.error MintError.invalidAmount, []) := by
  have hb : amountInvalid req.amount = true := by
    rcases h with h | ⟨v, hv, hle⟩
    · simp [amountInvalid, h]
    · simp [amountInvalid, hv, hle]
  simp [Mint, hb]

/-- Witness for C6 at a concrete input: absent amount. -/
theorem mint_invalid_amount_no_effects_witness :
    Mint envOk reqNoAmount = (Except.error MintError.invalidAmount, []) :=
  mint_invalid_amount_no_effects envOk reqNoAmount (Or.inl rfl)

/-- Claim C5: when the resolved nullifier is strictly positive and the
store reports it marked used (a successful `Get` with a non-empty value),
a validated `Mint` call fails with the replay error and its whole trace is
the single database read: in particular the proof oracle is never invoked,
whatever the verifier would have answered. -/
theorem mint_replay_rejected_before_verify (env : Env) (req : MintRequest)
    (n : Int) (v : List Nat)
    (hval : passesValidation env req = true)
    (hres : resolveNullifier env req = some n)
    (hpos : 0 < n)
    (hget : env.dbGet (getNullifierKey n) = Except.ok v)
    (hv : v ≠ []) :
    Mint env req =
      (Except.error MintError.nullifierUsed, [Event.dbGet (getNullifierKey n)]) ∧
    ∀ vk p, Event.verifyInvoke vk p ∉ (Mint env req).2 := by
  have hhit : replayCheckHit env (some n) = true := by
    simp [replayCheckHit, hpos, hget, List.length_pos]
    exact hv
  have heq : Mint env req =
      (Except.error MintError.nullifierUsed, [Event.dbGet (getNullifierKey n)]) := by
    rw [mint_validated env req hval, mintAfterValidation_cases, hres]
    simp [hhit, replayCheckTrace, hpos]
  refine ⟨heq, ?_⟩
  rw [heq]
  intro vk p
  simp

/-- Witness for C5 at a concrete input: explicit nullifier 5, store value
`[1]`, accepting verifier. -/
theorem mint_replay_rejected_before_verify_witness :
    Mint envUsed reqExplicit5 =
      (Except.error MintError.nullifierUsed, [Event.dbGet (getNullifierKey 5)]) ∧
    ∀ vk p, Event.verifyInvoke vk p ∉ (Mint envUsed reqExplicit5).2 :=
  mint_replay_rejected_before_verify envUsed reqExplicit5 5 [1]
    (by decide) rfl (by decide) rfl (by decide)

/-- Claim C10: when the resolved nullifier is strictly positive but the
store's `Get` fails with any error, the nullifier is treated as unused:
no replay error is reported and the call goes on to invoke the proof
oracle. -/
theorem mint_get_error_proceeds (env : Env) (req : MintRequest)
    (n : Int) (msg : String)
    (hval : passesValidation env req = true)
    (hres : resolveNullifier env req = some n)
    (hpos : 0 < n)
    (hget : env.dbGet (getNullifierKey n) = Except.error msg) :
    (Mint env req).1 ≠ Except.error MintError.nullifierUsed ∧
    Event.verifyInvoke (env.dirOf req.proofData ++ "/vk") req.proofData ∈
      (Mint env req).2 := by
  have hhit : replayCheckHit env (some n) = false := by
    simp [replayCheckHit, hpos, hget]
  rw [mint_validated env req hval, mintAfterValidation_cases, hres]
  simp only [hhit, Bool.false_eq_true, if_false]
  by_cases hrej :
      verifyRejected env (env.dirOf req.proofData ++ "/vk") req.proofData = true
  · simp [hrej]
  · simp only [hrej, Bool.false_eq_true, if_false]
    refine ⟨issueTx_fst_ne_nullifierUsed env req (some n), ?_⟩
    simp

/-- Witness for C10 at a concrete input: explicit nullifier 5 and a store
whose reads fail with a disk error. -/
theorem mint_get_error_proceeds_witness :
    (Mint envGetErr reqExplicit5).1 ≠ Except.error MintError.nullifierUsed ∧
    Event.verifyInvoke (envGetErr.dirOf reqExplicit5.proofData ++ "/vk")
        reqExplicit5.proofData ∈ (Mint envGetErr reqExplicit5).2 :=
  mint_get_error_proceeds envGetErr reqExplicit5 5 "disk corruption"
    (by decide) rfl (by decide) rfl

/-- Like `envOk`, but the `bb verify` invocation fails and the proof file
reads back as the mock sentinel `"mock-proof-data"`. -/
def envMock : Env :=
  ⟨fun _ => true, fun _ => "d", fun _ => Except.ok "mock-proof-data", fun _ => none,
   fun _ => none, fun bs => bs, fun _ => Except.error "leveldb: not found",
   fun _ _ => Except.ok (), fun _ _ => true, Except.ok 7,
   fun _ => Except.ok 42, fun _ => Except.ok ()⟩

/-- Like `envOk`, but the `bb verify` invocation fails while the proof file
holds ordinary (non-sentinel) bytes. -/
def envVerifyFail : Env :=
  ⟨fun _ => true, fun _ => "d", fun _ => Except.ok "proof-bytes", fun _ => none,
   fun _ => none, fun bs => bs, fun _ => Except.error "leveldb: not found",
   fun _ _ => Except.ok (), fun _ _ => true, Except.ok 7,
   fun _ => Except.ok 42, fun _ => Except.ok ()⟩

/-- A request with a valid amount and no nullifier, secret or parsable
proof-derived nullifier. -/
def reqPlain : MintRequest :=
  ⟨1, some 1, "p", none, none⟩

/-- Counterexample to claim C2 as stated: a concrete call in which the
external verifier invocation fails (`verifyFails` answers `true` for the
very paths the call passes to it, and the verifier is really invoked), yet
`Mint` succeeds instead of returning the verification error, because the
proof file reads back as `"mock-proof-data"`. -/
theorem mint_mock_bypass_accepts :
    envMock.verifyFails (envMock.dirOf reqPlain.proofData ++ "/vk") reqPlain.proofData
        = true ∧
    Event.verifyInvoke (envMock.dirOf reqPlain.proofData ++ "/vk") reqPlain.proofData
        ∈ (Mint envMock reqPlain).2 ∧
    (Mint envMock reqPlain).1 = Except.ok ⟨42, 0⟩ := by
  refine ⟨rfl, ?_, rfl⟩
  show Event.verifyInvoke "d/vk" "p" ∈ (Mint envMock reqPlain).2
  have h : (Mint envMock reqPlain).2 =
      [Event.verifyInvoke "d/vk" "p", Event.nonceFetch, Event.signEvent,
        Event.sendTx] := rfl
  rw [h]
  simp

/-- Claim C2, amended: when a validated call that passes the replay
pre-check invokes the external verifier and the invocation fails, `Mint`
returns the verification error — unless the proof file reads back exactly
as the sentinel `"mock-proof-data"`, which bypasses the failure. -/
theorem mint_verifier_failure_rejected (env : Env) (req : MintRequest)
    (hval : passesValidation env req = true)
    (hhit : replayCheckHit env (resolveNullifier env req) = false)
    (hfail : env.verifyFails (env.dirOf req.proofData ++ "/vk") req.proofData = true)
    (hmock : env.readFile req.proofData ≠ Except.ok "mock-proof-data") :
    (Mint env req).1 = Except.error MintError.verificationFailed := by
  have hrej : verifyRejected env (env.dirOf req.proofData ++ "/vk") req.proofData
      = true := by
    unfold verifyRejected
    rw [hfail]
    simp only [Bool.true_and, Bool.not_eq_true']
    rcases h : env.readFile req.proofData with e | data
    · rfl
    · have hd : data ≠ "mock-proof-data" := by
        intro hd
        exact hmock (by rw [h, hd])
      exact beq_eq_false_iff_ne.mpr hd
  rw [mint_validated env req hval, mintAfterValidation_cases]
  simp [hhit, hrej]

/-- Witness for the amended C2 at a concrete input: a failing verifier and
an ordinary proof file yield the verification error. -/
theorem mint_verifier_failure_rejected_witness :
    (Mint envVerifyFail reqPlain).1 = Except.error MintError.verificationFailed :=
  mint_verifier_failure_rejected envVerifyFail reqPlain (by decide) rfl rfl
    (by simp [envVerifyFail])

/-- Like `envOk`, but every database write fails. -/
def envPutFail : Env :=
  ⟨fun _ => true, fun _ => "d", fun _ => Except.ok "proof-bytes", fun _ => none,
   fun _ => none, fun bs => bs, fun _ => Except.error "leveldb: not found",
   fun _ _ => Except.error "disk full", fun _ _ => false, Except.ok 7,
   fun _ => Except.ok 42, fun _ => Except.ok ()⟩

/-- Counterexample to claim C3 as stated: a concrete call in which marking
the resolved nullifier as used fails (`Put` returns an error), yet the
error is not returned: the mint continues and succeeds. -/
theorem mint_put_failure_ignored :
    envPutFail.dbPut (getNullifierKey 5) [1] = Except.error "disk full" ∧
    Event.dbPut (getNullifierKey 5) [1] ∈ (Mint envPutFail reqExplicit5).2 ∧
    (Mint envPutFail reqExplicit5).1 = Except.ok ⟨42, 5⟩ := by
  refine ⟨rfl, ?_, rfl⟩
  have h : (Mint envPutFail reqExplicit5).2 =
      [Event.dbGet (getNullifierKey 5), Event.verifyInvoke "d/vk" "p",
        Event.dbPut (getNullifierKey 5) [1], Event.nonceFetch, Event.signEvent,
        Event.sendTx] := rfl
  rw [h]
  simp

/-- `env` with its `dbPut` collaborator replaced. -/
def withPut (e : Env) (f : List Nat → List Nat → Except String Unit) : Env :=
  ⟨e.fileExists, e.dirOf, e.readFile, e.jsonParse, e.parseHexBig, e.keccak,
   e.dbGet, f, e.verifyFails, e.getPoolNonce, e.signTx, e.sendTx⟩

/-- Claim C3, amended: the outcome of marking the nullifier as used is
ignored — result and trace of `Mint` are identical whatever the store's
`Put` returns, so a `Put` failure is never surfaced to the caller and the
call continues to a successful mint. -/
theorem mint_put_result_irrelevant (env : Env)
    (f : List Nat → List Nat → Except String Unit) (req : MintRequest) :
    Mint (withPut env f) req = Mint env req := by
  by_cases hval : passesValidation env req = true
  · have hval2 : passesValidation (withPut env f) req = true := hval
    rw [mint_validated (withPut env f) req hval2, mint_validated env req hval,
      mintAfterValidation_cases, mintAfterValidation_cases]
    rfl
  · by_cases h1 : amountInvalid req.amount = true
    · simp [Mint, h1]
    · by_cases h2 : (req.proofData == "") = true
      · simp [Mint, h1, h2]
      · by_cases h3 : env.fileExists req.proofData = true
        · by_cases h4 : env.fileExists (env.dirOf req.proofData ++ "/vk") = true
          · exact absurd (by simp [passesValidation, h1, h2, h3, h4]) hval
          · simp [Mint, withPut, h1, h2, h3, h4]
        · simp [Mint, withPut, h1, h2, h3]

/-- Failed validation produces an empty trace and never the replay error. -/
theorem mint_not_validated (env : Env) (req : MintRequest)
    (h : passesValidation env req = false) :
    (Mint env req).2 = [] ∧
    (Mint env req).1 ≠ Except.error MintError.nullifierUsed := by
  by_cases h1 : amountInvalid req.amount = true
  · simp [Mint, h1]
  · by_cases h2 : (req.proofData == "") = true
    · simp [Mint, h1, h2]
    · by_cases h3 : env.fileExists req.proofData = true
      · by_cases h4 : env.fileExists (env.dirOf req.proofData ++ "/vk") = true
        · have ht : passesValidation env req = true := by
            simp [passesValidation, h1, h2, h3, h4]
          exact absurd ht (by simp [h])
        · simp [Mint, h1, h2, h3, h4]
      · simp [Mint, h1, h2, h3]

/-- Every run of `Mint` has one of four shapes: a validation failure with
an empty trace, a replay rejection, a verification rejection, or a full run
through commit and issuance. -/
theorem mint_shape (env : Env) (req : MintRequest) :
    (passesValidation env req = false ∧ (Mint env req).2 = [] ∧
      (Mint env req).1 ≠ Except.error MintError.nullifierUsed) ∨
    (replayCheckHit env (resolveNullifier env req) = true ∧
      Mint env req = (Except.error MintError.nullifierUsed,
        replayCheckTrace (resolveNullifier env req))) ∨
    (replayCheckHit env (resolveNullifier env req) = false ∧
      verifyRejected env (env.dirOf req.proofData ++ "/vk") req.proofData = true ∧
      Mint env req = (Except.error MintError.verificationFailed,
        replayCheckTrace (resolveNullifier env req) ++
          [Event.verifyInvoke (env.dirOf req.proofData ++ "/vk") req.proofData])) ∨
    (replayCheckHit env (resolveNullifier env req) = false ∧
      verifyRejected env (env.dirOf req.proofData ++ "/vk") req.proofData = false ∧
      Mint env req = ((issueTx env req (resolveNullifier env req)).1,
        replayCheckTrace (resolveNullifier env req) ++
          [Event.verifyInvoke (env.dirOf req.proofData ++ "/vk") req.proofData] ++
          commitEvents (resolveNullifier env req) ++
          (issueTx env req (resolveNullifier env req)).2)) := by
  by_cases hval : passesValidation env req = true
  · by_cases hhit : replayCheckHit env (resolveNullifier env req) = true
    · refine Or.inr (Or.inl ⟨hhit, ?_⟩)
      rw [mint_validated env req hval, mintAfterValidation_cases]
      simp [hhit]
    · have hhit2 : replayCheckHit env (resolveNullifier env req) = false := by
        simpa using hhit
      by_cases hrej :
          verifyRejected env (env.dirOf req.proofData ++ "/vk") req.proofData = true
      · refine Or.inr (Or.inr (Or.inl ⟨hhit2, hrej, ?_⟩))
        rw [mint_validated env req hval, mintAfterValidation_cases]
        simp [hhit2, hrej]
      · have hrej2 :
            verifyRejected env (env.dirOf req.proofData ++ "/vk") req.proofData
              = false := by
          simpa using hrej
        refine Or.inr (Or.inr (Or.inr ⟨hhit2, hrej2, ?_⟩))
        rw [mint_validated env req hval, mintAfterValidation_cases]
        simp [hhit2, hrej2]
  · have hval2 : passesValidation env req = false := by simpa using hval
    exact Or.inl ⟨hval2, (mint_not_validated env req hval2).1,
      (mint_not_validated env req hval2).2⟩

/-- A list free of database writes contains no `dbPut` event. -/
theorem noPut_not_mem {l : List Event} (h : noPut l = true) (k v : List Nat) :
    Event.dbPut k v ∉ l := by
  intro hm
  have := List.all_eq_true.mp h _ hm
  simp [Event.isPut] at this

/-- A list free of issuance events satisfies the ordering property. -/
theorem commitPrecedesIssue_of_noIssue (l : List Event) (h : noIssue l = true) :
    commitPrecedesIssue l = true := by
  induction l with
  | nil => rfl
  | cons e rest ih =>
    simp only [noIssue, List.all_cons, Bool.and_eq_true, Bool.not_eq_true'] at h
    simp only [commitPrecedesIssue, Bool.and_eq_true]
    exact ⟨by simp [h.1], ih h.2⟩

/-- Claim C4: the nullifier commit happens only after the verification step
has been reached and has not rejected, and before issuance; when
verification rejects, `Mint` returns the verification error with no store
write in its trace (its only store access is the read-only pre-check). -/
theorem mint_commit_only_after_verify (env : Env) (req : MintRequest) :
    (∀ k v, Event.dbPut k v ∈ (Mint env req).2 →
      verifyRejected env (env.dirOf req.proofData ++ "/vk") req.proofData = false ∧
      Event.verifyInvoke (env.dirOf req.proofData ++ "/vk") req.proofData ∈
        (Mint env req).2) ∧
    (passesValidation env req = true →
      replayCheckHit env (resolveNullifier env req) = false →
      verifyRejected env (env.dirOf req.proofData ++ "/vk") req.proofData = true →
      (Mint env req).1 = Except.error MintError.verificationFailed ∧
      ∀ k v, Event.dbPut k v ∉ (Mint env req).2) ∧
    commitPrecedesIssue (Mint env req).2 = true := by
  rcases mint_shape env req with ⟨hval, htr, hne⟩ | ⟨hhit, heq⟩ |
    ⟨hhit, hrej, heq⟩ | ⟨hhit, hrej, heq⟩
  · refine ⟨?_, ?_, ?_⟩
    · intro k v hm
      rw [htr] at hm
      simp at hm
    · intro h
      rw [h] at hval
      simp at hval
    · rw [htr]
      rfl
  · refine ⟨?_, ?_, ?_⟩
    · intro k v hm
      rw [heq] at hm
      exact absurd hm
        ((replayCheckTrace_clean (resolveNullifier env req)).2.2.1 k v)
    · intro _ hh
      rw [hhit] at hh
      simp at hh
    · rw [heq]
      exact commitPrecedesIssue_of_noIssue _
        (replayCheckTrace_clean (resolveNullifier env req)).1
  · refine ⟨?_, ?_, ?_⟩
    · intro k v hm
      rw [heq] at hm
      simp only [List.mem_append, List.mem_singleton] at hm
      rcases hm with hm | hm
      · exact absurd hm
          ((replayCheckTrace_clean (resolveNullifier env req)).2.2.1 k v)
      · exact absurd hm (by simp)
    · intro _ _ _
      constructor
      · rw [heq]
      · intro k v hm
        rw [heq] at hm
        simp only [List.mem_append, List.mem_singleton] at hm
        rcases hm with hm | hm
        · exact absurd hm
            ((replayCheckTrace_clean (resolveNullifier env req)).2.2.1 k v)
        · exact absurd hm (by simp)
    · rw [heq]
      refine commitPrecedesIssue_append _ _
        (replayCheckTrace_clean (resolveNullifier env req)).1 ?_
      rfl
  · refine ⟨?_, ?_, ?_⟩
    · intro k v hm
      refine ⟨hrej, ?_⟩
      rw [heq]
      simp
    · intro _ _ hr
      rw [hr] at hrej
      simp at hrej
    · rw [heq]
      simp only [List.append_assoc]
      refine commitPrecedesIssue_append _ _
        (replayCheckTrace_clean (resolveNullifier env req)).1 ?_
      refine commitPrecedesIssue_append _ _ (by rfl) ?_
      refine commitPrecedesIssue_append _ _
        (commitEvents_clean (resolveNullifier env req)).1 ?_
      exact (issueTx_snd_clean env req (resolveNullifier env req)).2.1

/-- Witness for C4 at a concrete input: a rejecting verifier yields the
verification error and a write-free trace. -/
theorem mint_commit_only_after_verify_witness :
    (Mint envVerifyFail reqPlain).1 = Except.error MintError.verificationFailed ∧
    ∀ k v, Event.dbPut k v ∉ (Mint envVerifyFail reqPlain).2 :=
  (mint_commit_only_after_verify envVerifyFail reqPlain).2.1 (by decide) rfl rfl

/-- A request with a valid amount and a secret (2), but no explicit
nullifier. -/
def reqSecret2 : MintRequest :=
  ⟨1, some 1, "p", none, some 2⟩

/-- Claim C7: nullifier resolution is first-match-wins — the request's
explicit nullifier field, otherwise derivation from the supplied secret,
otherwise best-effort extraction from the proof artifact's public inputs —
and when nothing resolves, the mint proceeds with no replay protection:
no store read, no store write, and never a replay rejection. -/
theorem resolveNullifier_first_match (env : Env) (req : MintRequest)
    (n s : Int) :
    (req.nullifier = some n → resolveNullifier env req = some n) ∧
    (req.nullifier = none → req.secret = some s →
      resolveNullifier env req = computeNullifier env.keccak (some s)) ∧
    (req.nullifier = none → req.secret = none →
      resolveNullifier env req = nullifierFromProof env req.proofData) ∧
    (resolveNullifier env req = none →
      (∀ k, Event.dbGet k ∉ (Mint env req).2) ∧
      (∀ k v, Event.dbPut k v ∉ (Mint env req).2) ∧
      (Mint env req).1 ≠ Except.error MintError.nullifierUsed) := by
  refine ⟨fun h => by simp [resolveNullifier, h],
    fun h1 h2 => by simp [resolveNullifier, h1, h2],
    fun h1 h2 => by simp [resolveNullifier, h1, h2], fun hres => ?_⟩
  rcases mint_shape env req with ⟨hval, htr, hne⟩ | ⟨hhit, heq⟩ |
    ⟨hhit, hrej, heq⟩ | ⟨hhit, hrej, heq⟩
  · rw [htr]
    exact ⟨fun k => by simp, fun k v => by simp, hne⟩
  · rw [hres] at hhit
    simp [replayCheckHit] at hhit
  · rw [hres] at heq
    rw [heq]
    refine ⟨fun k => by simp [replayCheckTrace], fun k v => by simp [replayCheckTrace], ?_⟩
    simp
  · rw [hres] at heq
    rw [heq]
    refine ⟨fun k => ?_, fun k v => ?_, ?_⟩
    · simp only [replayCheckTrace, commitEvents, List.nil_append, List.append_nil]
      intro hm
      simp only [List.mem_append, List.mem_singleton] at hm
      rcases hm with hm | hm
      · simp at hm
      · exact absurd hm ((issueTx_snd_clean env req none).2.2.1 k)
    · simp only [replayCheckTrace, commitEvents, List.nil_append, List.append_nil]
      intro hm
      simp only [List.mem_append, List.mem_singleton] at hm
      rcases hm with hm | hm
      · simp at hm
      · exact absurd hm
          (noPut_not_mem (issueTx_snd_clean env req none).1 k v)
    · exact issueTx_fst_ne_nullifierUsed env req none

/-- Witness for C7 at concrete inputs: each resolution alternative, and an
unguarded run when nothing resolves. -/
theorem resolveNullifier_first_match_witness :
    resolveNullifier envOk reqExplicit5 = some 5 ∧
    resolveNullifier envOk reqSecret2 = computeNullifier envOk.keccak (some 2) ∧
    resolveNullifier envOk reqPlain = nullifierFromProof envOk reqPlain.proofData ∧
    ((∀ k, Event.dbGet k ∉ (Mint envOk reqPlain).2) ∧
      (∀ k v, Event.dbPut k v ∉ (Mint envOk reqPlain).2) ∧
      (Mint envOk reqPlain).1 ≠ Except.error MintError.nullifierUsed) :=
  ⟨(resolveNullifier_first_match envOk reqExplicit5 5 0).1 rfl,
   (resolveNullifier_first_match envOk reqSecret2 0 2).2.1 rfl rfl,
   (resolveNullifier_first_match envOk reqPlain 0 0).2.2.1 rfl rfl,
   (resolveNullifier_first_match envOk reqPlain 0 0).2.2.2 rfl⟩

/-- Claim C8: `computeNullifier` is a pure function of the secret given the
hash: its value on a present secret is exactly the hash of the fixed
domain-separation tag byte `0x01` followed by the secret's big-endian byte
encoding; equal secrets give equal nullifiers; and distinct non-negative
secrets always present distinct inputs to the hash (so their outputs differ
except at a Keccak-256 collision). -/
theorem computeNullifier_pure_formula (keccakF : List Nat → List Nat)
    (s1 s2 : Int) :
    computeNullifier keccakF (some s1) =
      some (Int.ofNat (bytesToNat (keccakF (1 :: natToBytesBE s1.natAbs)))) ∧
    (s1 = s2 → computeNullifier keccakF (some s1) = computeNullifier keccakF (some s2)) ∧
    (0 ≤ s1 → 0 ≤ s2 → s1 ≠ s2 →
      (1 :: natToBytesBE s1.natAbs) ≠ (1 :: natToBytesBE s2.natAbs)) := by
  refine ⟨rfl, fun h => by rw [h], fun h1 h2 hne heq => ?_⟩
  have h3 : natToBytesBE s1.natAbs = natToBytesBE s2.natAbs := by
    injection heq
  have h4 : s1.natAbs = s2.natAbs := natToBytesBE_injective h3
  exact hne (by omega)

/-- Witness for C8 at concrete inputs: the formula at secret 2, and
distinct hash inputs for secrets 2 and 3. -/
theorem computeNullifier_pure_formula_witness :
    computeNullifier (fun bs => bs) (some 2) =
      some (Int.ofNat (bytesToNat ((fun bs => bs) (1 :: natToBytesBE (2 : Int).natAbs)))) ∧
    (1 :: natToBytesBE (2 : Int).natAbs) ≠ (1 :: natToBytesBE (3 : Int).natAbs) :=
  ⟨(computeNullifier_pure_formula (fun bs => bs) 2 3).1,
   (computeNullifier_pure_formula (fun bs => bs) 2 3).2.2 (by decide) (by decide)
     (by decide)⟩

/-- `env` with both store collaborators (`dbGet`, `dbPut`) replaced. -/
def withStore (e : Env) (g : List Nat → Except String (List Nat))
    (f : List Nat → List Nat → Except String Unit) : Env :=
  ⟨e.fileExists, e.dirOf, e.readFile, e.jsonParse, e.parseHexBig, e.keccak,
   g, f, e.verifyFails, e.getPoolNonce, e.signTx, e.sendTx⟩

/-- With an explicit nonpositive nullifier the store is never consulted:
`Mint` behaves identically whatever `dbGet` and `dbPut` do. -/
theorem mint_store_irrelevant_nonpos (env : Env)
    (g : List Nat → Except String (List Nat))
    (f : List Nat → List Nat → Except String Unit)
    (req : MintRequest) (n : Int)
    (hn : req.nullifier = some n) (hle : n ≤ 0) :
    Mint (withStore env g f) req = Mint env req := by
  have hnpos : ¬(0 < n) := by omega
  by_cases hval : passesValidation env req = true
  · have hval2 : passesValidation (withStore env g f) req = true := hval
    rw [mint_validated (withStore env g f) req hval2, mint_validated env req hval,
      mintAfterValidation_cases, mintAfterValidation_cases]
    have hres1 : resolveNullifier env req = some n := by
      simp [resolveNullifier, hn]
    have hres2 : resolveNullifier (withStore env g f) req = some n := by
      simp [resolveNullifier, hn]
    rw [hres1, hres2]
    have hh1 : replayCheckHit env (some n) = false := by
      simp [replayCheckHit, hnpos]
    have hh2 : replayCheckHit (withStore env g f) (some n) = false := by
      simp [replayCheckHit, hnpos]
    rw [hh1, hh2]
    simp only [Bool.false_eq_true, if_false]
    rfl
  · by_cases h1 : amountInvalid req.amount = true
    · simp [Mint, h1]
    · by_cases h2 : (req.proofData == "") = true
      · simp [Mint, h1, h2]
      · by_cases h3 : env.fileExists req.proofData = true
        · by_cases h4 : env.fileExists (env.dirOf req.proofData ++ "/vk") = true
          · exact absurd (by simp [passesValidation, h1, h2, h3, h4]) hval
          · simp [Mint, withStore, h1, h2, h3, h4]
        · simp [Mint, withStore, h1, h2, h3]

/-- Claim C9: a request carrying an explicit nullifier that is zero or
negative gets no replay protection at all: the pre-check and the commit are
both skipped (no store read or write ever occurs, and the outcome is
independent of the store), and the call is never rejected as a replay — so
it can succeed any number of times. -/
theorem mint_nonpositive_nullifier_unguarded (env : Env)
    (g : List Nat → Except String (List Nat))
    (f : List Nat → List Nat → Except String Unit)
    (req : MintRequest) (n : Int)
    (hn : req.nullifier = some n) (hle : n ≤ 0) :
    Mint (withStore env g f) req = Mint env req ∧
    (∀ k, Event.dbGet k ∉ (Mint env req).2) ∧
    (∀ k v, Event.dbPut k v ∉ (Mint env req).2) ∧
    (Mint env req).1 ≠ Except.error MintError.nullifierUsed := by
  have hnpos : ¬(0 < n) := by omega
  have hres : resolveNullifier env req = some n := by
    simp [resolveNullifier, hn]
  refine ⟨mint_store_irrelevant_nonpos env g f req n hn hle, ?_⟩
  rcases mint_shape env req with ⟨hval, htr, hne⟩ | ⟨hhit, heq⟩ |
    ⟨hhit, hrej, heq⟩ | ⟨hhit, hrej, heq⟩
  · rw [htr]
    exact ⟨fun k => by simp, fun k v => by simp, hne⟩
  · rw [hres] at hhit
    simp [replayCheckHit, hnpos] at hhit
  · rw [hres] at heq
    rw [heq]
    refine ⟨fun k => ?_, fun k v => ?_, by simp⟩
    · simp [replayCheckTrace, hnpos]
    · simp [replayCheckTrace, hnpos]
  · rw [hres] at heq
    rw [heq]
    refine ⟨fun k => ?_, fun k v => ?_, ?_⟩
    · simp only [replayCheckTrace, commitEvents, hnpos, if_false,
        List.nil_append, List.append_nil]
      intro hm
      simp only [List.mem_append, List.mem_singleton] at hm
      rcases hm with hm | hm
      · simp at hm
      · exact absurd hm ((issueTx_snd_clean env req (some n)).2.2.1 k)
    · simp only [replayCheckTrace, commitEvents, hnpos, if_false,
        List.nil_append, List.append_nil]
      intro hm
      simp only [List.mem_append, List.mem_singleton] at hm
      rcases hm with hm | hm
      · simp at hm
      · exact absurd hm (noPut_not_mem (issueTx_snd_clean env req (some n)).1 k v)
    · exact issueTx_fst_ne_nullifierUsed env req (some n)

/-- A request with a valid amount and an explicit zero nullifier. -/
def reqZeroNull : MintRequest :=
  ⟨1, some 1, "p", some 0, none⟩

/-- Witness for C9 at a concrete input: with an explicit zero nullifier the
call succeeds even though the store claims every nullifier is used, the
store is irrelevant, and no store event occurs. -/
theorem mint_nonpositive_nullifier_unguarded_witness :
    (Mint envUsed reqZeroNull).1 = Except.ok ⟨42, 0⟩ ∧
    (Mint (withStore envUsed (fun _ => Except.ok [1])
        (fun _ _ => Except.error "disk full")) reqZeroNull = Mint envUsed reqZeroNull ∧
      (∀ k, Event.dbGet k ∉ (Mint envUsed reqZeroNull).2) ∧
      (∀ k v, Event.dbPut k v ∉ (Mint envUsed reqZeroNull).2) ∧
      (Mint envUsed reqZeroNull).1 ≠ Except.error MintError.nullifierUsed) :=
  ⟨rfl, mint_nonpositive_nullifier_unguarded envUsed (fun _ => Except.ok [1])
    (fun _ _ => Except.error "disk full") reqZeroNull 0 rfl (by decide)⟩
